import Mathlib

/-!
Shallow embedding of the `vole-rs` crate: the Vole machine engine
(`src/vole.rs`, `Cpu` with its fetch/decode/execute/cycle/run operations)
and the 8-bit floating-point codec (`src/floating.rs`, `Floating`).

Modelling conventions:
* `u8`/`u16`/`u32` values are `Nat` with explicit `% 2 ^ w` wherever the
  source's arithmetic wraps; unchecked arithmetic (`+` on `u8`, `i8::abs`
  at its minimum) is modelled with Rust's release-profile two's-complement
  wrapping semantics.
* Out-of-bounds indexing of a Rust array (a panic) is modelled as
  `Option.none`, so every state-mutating operation returns `Option`.
* The `f32` values of the codec are modelled as `ℚ`: every constant the
  codec manipulates is a small dyadic rational (multiples of `2⁻⁸` of
  magnitude below `2⁵`), on which 32-bit binary floating point arithmetic
  is exact, so the rational model agrees with the `f32` computation.
* `run` is a `while !halted` loop; it is modelled with explicit fuel.
-/

set_option maxRecDepth 16000

namespace Vole

/-! ### floating.rs -/

/-- `Floating::sign_bit`: bit 7 of the packed byte. -/
def sign_bit (value : Nat) : Nat :=
  (value % 256) >>> 7

/-- `Floating::exponent`: the 3-bit field `(value & 0x70) >> 4` mapped to a
signed exponent; the source's table sends `0b111` to `3` down to `0b000` to
`-4` (the source's final panicking arm is unreachable: a 3-bit field never
exceeds 7, so the `_` arm below is only ever taken for the code `0`). -/
def exponentF (value : Nat) : Int :=
  match (value &&& 0x70) >>> 4 with
  | 7 => 3
  | 6 => 2
  | 5 => 1
  | 4 => 0
  | 3 => -1
  | 2 => -2
  | 1 => -3
  | _ => -4

/-- `Floating::mantissa`: the low 4 bits. -/
def mantissaF (value : Nat) : Nat :=
  value &&& 0x0F

/-- The accumulation loop of `Floating::decode`: for `i` in `1..=n`,
`sum += (1 / 2^i) * ((float_bits >> (fpl - i)) & 1)`. -/
def floatPartSum (float_bits fpl : Nat) : Nat → ℚ
  | 0 => 0
  | n + 1 =>
      floatPartSum float_bits fpl n +
        (1 / (2 : ℚ) ^ (n + 1)) * (((float_bits >>> (fpl - (n + 1))) &&& 1 : Nat) : ℚ)

/-- `Floating::decode`: unpack sign, exponent and mantissa and rebuild the
value; the `u8` shifts `(mantissa << shifts) >> shifts` wrap modulo 256. -/
def decodeF (value : Nat) : ℚ :=
  let sign := sign_bit value
  let mantissa := mantissaF value
  let exponent := exponentF value
  let float_part_len : Nat := (4 - exponent).toNat
  let int_part : Nat := if exponent ≤ 0 then 0 else mantissa >>> float_part_len
  let float_part : ℚ :=
    let shifts := 8 - float_part_len
    let float_bits := ((mantissa <<< shifts) % 256) >>> shifts
    floatPartSum float_bits float_part_len float_part_len
  let abs : ℚ := (int_part : ℚ) + float_part
  if sign = 1 then -abs else abs

/-- Truncation toward zero, as `f32::trunc` / the integral part used by
`f32::fract`. -/
def ratTrunc (q : ℚ) : Int :=
  if 0 ≤ q then ⌊q⌋ else -⌊-q⌋

/-- The Rust cast `value as i8`: truncation toward zero saturated to the
`i8` range. -/
def i8SatCast (q : ℚ) : Int :=
  max (-128) (min 127 (ratTrunc q))

/-- `i8::abs` under wrapping (release-profile) semantics: the absolute
value, except that `-128` maps to itself. -/
def i8absWrap (x : Int) : Int :=
  if x = -128 then -128 else (x.natAbs : Int)

/-- `value.fract().abs()` for the original (uncast) value. -/
def fractAbs (q : ℚ) : ℚ :=
  |q - (ratTrunc q : ℚ)|

/-- The exponent-selection chain of `Floating::encode`; `none` models the
source's `panic!("unrepresentable")` arm. -/
def exponent_value (int_value : Int) (fract_value : ℚ) : Option Nat :=
  if 4 ≤ int_value then some 0x07
  else if 2 ≤ int_value then some 0x06
  else if 1 ≤ int_value then some 0x05
  else if 1 / 2 ≤ fract_value then some 0x04
  else if 1 / 4 ≤ fract_value then some 0x03
  else if 1 / 8 ≤ fract_value then some 0x02
  else if 1 / 16 ≤ fract_value then some 0x01
  else if 1 / 32 ≤ fract_value ∨ int_value = 0 then some 0x00
  else none

/-- The mantissa-building block of `Floating::encode`: greedily subtract the
weights 4, 2, 1, ½, ¼, ⅛, ¹⁄₁₆, ¹⁄₃₂, setting bits from the top and
tracking the left-alignment shift; the final `(bits << shift) >> 4` is `u8`
arithmetic, wrapping modulo 256. -/
def encodeMantissa (int_value : Int) (fract_value : ℚ) : Nat :=
  let bits : Nat := 0
  let ri : Int := int_value
  let rf : ℚ := fract_value
  let shift : Int := 7
  let s1 : Nat × Int × Int :=
    if 4 ≤ ri then (bits ||| 0b10000000, ri - 4, 0) else (bits, ri, shift)
  let s2 : Nat × Int × Int :=
    if 2 ≤ s1.2.1 then (s1.1 ||| 0b01000000, s1.2.1 - 2, min s1.2.2 1)
    else (s1.1, s1.2.1, s1.2.2)
  let s3 : Nat × Int :=
    if 1 ≤ s2.2.1 then (s2.1 ||| 0b00100000, min s2.2.2 2) else (s2.1, s2.2.2)
  let s4 : Nat × ℚ × Int :=
    if 1 / 2 ≤ rf then (s3.1 ||| 0b00010000, rf - 1 / 2, min s3.2 3)
    else (s3.1, rf, s3.2)
  let s5 : Nat × ℚ × Int :=
    if 1 / 4 ≤ s4.2.1 then (s4.1 ||| 0b00001000, s4.2.1 - 1 / 4, min s4.2.2 4)
    else (s4.1, s4.2.1, s4.2.2)
  let s6 : Nat × ℚ × Int :=
    if 1 / 8 ≤ s5.2.1 then (s5.1 ||| 0b00000100, s5.2.1 - 1 / 8, min s5.2.2 5)
    else (s5.1, s5.2.1, s5.2.2)
  let s7 : Nat × ℚ × Int :=
    if 1 / 16 ≤ s6.2.1 then (s6.1 ||| 0b00000010, s6.2.1 - 1 / 16, min s6.2.2 6)
    else (s6.1, s6.2.1, s6.2.2)
  let s8 : Nat × Int :=
    if 1 / 32 ≤ s7.2.1 then (s7.1 ||| 0b00000001, min s7.2.2 7) else (s7.1, s7.2.2)
  ((s8.1 <<< s8.2.toNat) % 256) >>> 4

/-- `Floating::encode`: sign from the comparison with zero, integer part
through the `as i8` cast and `abs`, fractional magnitude from `fract().abs()`;
`none` models the `panic!("unrepresentable")` arm of the exponent chain. -/
def encodeF (value : ℚ) : Option Nat :=
  let sign : Nat := if value < 0 then 1 else 0
  let int_value : Int := i8absWrap (i8SatCast value)
  let fract_value : ℚ := fractAbs value
  (exponent_value int_value fract_value).map fun e =>
    (sign <<< 7) ||| (e <<< 4) ||| encodeMantissa int_value fract_value

/-! ### vole.rs -/

/-- The machine state `Cpu` of `vole.rs`: 16 `u8` registers, 256 `u8` memory
cells (both as lists, indexed with failing accessors like the panicking Rust
array indexing), a `usize` program counter, the `u16` instruction register,
the `u32` cycle counter and the halt flag. -/
structure Cpu where
  registers : List Nat
  memory : List Nat
  program_counter : Nat
  instruction_register : Nat
  cycle : Nat
  halted : Bool
deriving DecidableEq

/-- `Cpu::new`: the all-zero state. -/
def Cpu.new : Cpu where
  registers := List.replicate 16 0
  memory := List.replicate 256 0
  program_counter := 0
  instruction_register := 0
  cycle := 0
  halted := false

/-- `Cpu::init`: `none` models the `panic!("given program does not fit into
memory")` taken when the program is longer than the 256-byte memory;
otherwise the program is copied to the front of the zeroed memory. -/
def Cpu.initM (program : List Nat) : Option Cpu :=
  if program.length > 256 then none
  else some { Cpu.new with memory := program ++ List.replicate (256 - program.length) 0 }

/-- The assignment `a[i] = v` on a Rust array viewed as a list: `none` when
the index is out of bounds (the panic). -/
def setByte (l : List Nat) (i v : Nat) : Option (List Nat) :=
  if i < l.length then some (l.set i v) else none

/-- `Cpu::fetch`: read the two bytes at `program_counter` and
`program_counter + 1` and big-endian-pack them into the instruction
register; `none` models the out-of-bounds panic. -/
def Cpu.fetchM (c : Cpu) : Option Cpu :=
  (c.memory.get? c.program_counter).bind fun instr_byte0 =>
  (c.memory.get? (c.program_counter + 1)).map fun instr_byte1 =>
  { c with instruction_register := (instr_byte0 <<< 8) ||| instr_byte1 }

/-- `Cpu::get_opcode_bits`: `instr >> 12`. -/
def get_opcode_bits (instr : Nat) : Nat := instr >>> 12

/-- `Cpu::get_operand1_bits`: `(instr & 0x0F00) >> 8`. -/
def get_operand1_bits (instr : Nat) : Nat := (instr &&& 0x0F00) >>> 8

/-- `Cpu::get_operand2_bits`: `(instr & 0x00F0) >> 4`. -/
def get_operand2_bits (instr : Nat) : Nat := (instr &&& 0x00F0) >>> 4

/-- `Cpu::get_operand3_bits`: `instr & 0x000F`. -/
def get_operand3_bits (instr : Nat) : Nat := instr &&& 0x000F

/-- `Cpu::get_operand23_bits`: `instr & 0x00FF`. -/
def get_operand23_bits (instr : Nat) : Nat := instr &&& 0x00FF

/-- The `OpCode` enum of `vole.rs`. -/
inductive OpCode where
  | LoadAddr (reg addr : Nat)
  | LoadValue (reg value : Nat)
  | Store (reg addr : Nat)
  | Move (source_reg target_reg : Nat)
  | AddInt (target_reg reg1 reg2 : Nat)
  | AddFloat (target_reg reg1 reg2 : Nat)
  | Or (target_reg reg1 reg2 : Nat)
  | And (target_reg reg1 reg2 : Nat)
  | Xor (target_reg reg1 reg2 : Nat)
  | Rotate (reg times : Nat)
  | Jump (reg addr : Nat)
  | Halt
deriving DecidableEq

/-- `Cpu::decode` as a function of the instruction register's value: match
on the top nibble, extract the operand fields, `none` for any opcode nibble
outside `0x1..0xC`. -/
def decodeInstr (instr : Nat) : Option OpCode :=
  let operand1 := get_operand1_bits instr
  let operand2 := get_operand2_bits instr
  let operand3 := get_operand3_bits instr
  match get_opcode_bits instr with
  | 0x1 => some (.LoadAddr operand1 (get_operand23_bits instr))
  | 0x2 => some (.LoadValue operand1 (get_operand23_bits instr))
  | 0x3 => some (.Store operand1 (get_operand23_bits instr))
  | 0x4 => some (.Move operand2 operand3)
  | 0x5 => some (.AddInt operand1 operand2 operand3)
  | 0x6 => some (.AddFloat operand1 operand2 operand3)
  | 0x7 => some (.Or operand1 operand2 operand3)
  | 0x8 => some (.And operand1 operand2 operand3)
  | 0x9 => some (.Xor operand1 operand2 operand3)
  | 0xA => some (.Rotate operand1 operand3)
  | 0xB => some (.Jump operand1 (get_operand23_bits instr))
  | 0xC => some .Halt
  | _ => none

/-- `Cpu::decode`. -/
def Cpu.decode (c : Cpu) : Option OpCode :=
  decodeInstr c.instruction_register

/-- `u8::rotate_right`: circular right rotation of the 8 bits by the count
modulo 8. -/
def rotr8 (v n : Nat) : Nat :=
  (v >>> (n % 8)) ||| ((v <<< (8 - n % 8)) % 256)

/-- `Cpu::execute`: one opcode's side effects, then — for every opcode but
`Jump` — the `program_counter += 2` advance (inlined into each arm here).
Register/memory indexing that would panic yields `none`; the unchecked `u8`
addition of `AddInt` wraps modulo 256 (release-profile semantics). -/
def Cpu.executeM (c : Cpu) (opcode : OpCode) : Option Cpu :=
  match opcode with
  | .LoadAddr reg address =>
      (c.memory.get? address).bind fun v =>
      (setByte c.registers reg v).map fun rs =>
      { c with registers := rs, program_counter := c.program_counter + 2 }
  | .LoadValue reg value =>
      (setByte c.registers reg value).map fun rs =>
      { c with registers := rs, program_counter := c.program_counter + 2 }
  | .Store reg addr =>
      (c.registers.get? reg).bind fun v =>
      (setByte c.memory addr v).map fun m =>
      { c with memory := m, program_counter := c.program_counter + 2 }
  | .Move source_reg target_reg =>
      (c.registers.get? source_reg).bind fun v =>
      (setByte c.registers target_reg v).map fun rs =>
      { c with registers := rs, program_counter := c.program_counter + 2 }
  | .AddInt target_reg reg1 reg2 =>
      (c.registers.get? reg1).bind fun v1 =>
      (c.registers.get? reg2).bind fun v2 =>
      (setByte c.registers target_reg ((v1 + v2) % 256)).map fun rs =>
      { c with registers := rs, program_counter := c.program_counter + 2 }
  | .AddFloat target_reg reg1 reg2 =>
      (c.registers.get? reg1).bind fun v1 =>
      (c.registers.get? reg2).bind fun v2 =>
      (encodeF (decodeF v1 + decodeF v2)).bind fun v3 =>
      (setByte c.registers target_reg v3).map fun rs =>
      { c with registers := rs, program_counter := c.program_counter + 2 }
  | .Or target_reg reg1 reg2 =>
      (c.registers.get? reg1).bind fun v1 =>
      (c.registers.get? reg2).bind fun v2 =>
      (setByte c.registers target_reg (v1 ||| v2)).map fun rs =>
      { c with registers := rs, program_counter := c.program_counter + 2 }
  | .And target_reg reg1 reg2 =>
      (c.registers.get? reg1).bind fun v1 =>
      (c.registers.get? reg2).bind fun v2 =>
      (setByte c.registers target_reg (v1 &&& v2)).map fun rs =>
      { c with registers := rs, program_counter := c.program_counter + 2 }
  | .Xor target_reg reg1 reg2 =>
      (c.registers.get? reg1).bind fun v1 =>
      (c.registers.get? reg2).bind fun v2 =>
      (setByte c.registers target_reg (v1 ^^^ v2)).map fun rs =>
      { c with registers := rs, program_counter := c.program_counter + 2 }
  | .Rotate reg times =>
      (c.registers.get? reg).bind fun v =>
      (setByte c.registers reg (rotr8 v times)).map fun rs =>
      { c with registers := rs, program_counter := c.program_counter + 2 }
  | .Jump reg addr =>
      (c.registers.get? 0).bind fun r0 =>
      (c.registers.get? reg).bind fun rr =>
      if r0 = rr then
        (c.memory.get? addr).map fun t => { c with program_counter := t }
      else
        some c
  | .Halt =>
      some { c with halted := true, program_counter := c.program_counter + 2 }

/-- `Cpu::cycle`: fetch, decode, then either execute and bump the cycle
counter (`wrapping_add(1)`, i.e. modulo `2³²`) reporting `true`, or — on an
illegal opcode — halt and report `false`. -/
def Cpu.cycleM (c : Cpu) : Option (Bool × Cpu) :=
  (c.fetchM).bind fun c1 =>
  match c1.decode with
  | some opcode =>
      (c1.executeM opcode).map fun c2 =>
        (true, { c2 with cycle := (c2.cycle + 1) % 4294967296 })
  | none => some (false, { c1 with halted := true })

/-- The `while !self.halted { r = self.cycle() }` loop of `Cpu::run`, with
explicit fuel: `r` carries the result of the last cycle executed; `none`
models either a panicking cycle or fuel running out before the halt. -/
def Cpu.runAux : Nat → Bool → Cpu → Option (Bool × Cpu)
  | 0, r, c => if c.halted then some (r, c) else none
  | fuel + 1, r, c =>
    if c.halted then some (r, c)
    else (c.cycleM).bind fun bc => Cpu.runAux fuel bc.1 bc.2

/-- `Cpu::run`: the loop started with `r = true`. -/
def Cpu.runM (fuel : Nat) (c : Cpu) : Option (Bool × Cpu) :=
  Cpu.runAux fuel true c

/-- Structural well-formedness of a machine state: the two arrays have their
fixed Rust lengths (`[u8; 16]` and `[u8; 256]`). -/
def Wf (c : Cpu) : Prop :=
  c.registers.length = 16 ∧ c.memory.length = 256

instance (c : Cpu) : Decidable (Wf c) := by
  unfold Wf; infer_instance

/-- The operand-field bounds a decoded opcode enjoys: register indices are
4-bit (below 16), addresses and immediate values are 8-bit (below 256). -/
def opBounds : OpCode → Prop
  | .LoadAddr reg addr => reg < 16 ∧ addr < 256
  | .LoadValue reg value => reg < 16 ∧ value < 256
  | .Store reg addr => reg < 16 ∧ addr < 256
  | .Move source_reg target_reg => source_reg < 16 ∧ target_reg < 16
  | .AddInt t r1 r2 => t < 16 ∧ r1 < 16 ∧ r2 < 16
  | .AddFloat t r1 r2 => t < 16 ∧ r1 < 16 ∧ r2 < 16
  | .Or t r1 r2 => t < 16 ∧ r1 < 16 ∧ r2 < 16
  | .And t r1 r2 => t < 16 ∧ r1 < 16 ∧ r2 < 16
  | .Xor t r1 r2 => t < 16 ∧ r1 < 16 ∧ r2 < 16
  | .Rotate reg times => reg < 16 ∧ times < 16
  | .Jump reg addr => reg < 16 ∧ addr < 256
  | .Halt => True

/-! ### Helper lemmas -/

theorem get?_some_of_lt {l : List Nat} {i : Nat} (h : i < l.length) :
    ∃ v, l.get? i = some v :=
  ⟨l.get ⟨i, h⟩, List.get?_eq_some.mpr ⟨h, rfl⟩⟩

theorem setByte_eq_of_lt {l : List Nat} {i : Nat} (v : Nat) (h : i < l.length) :
    setByte l i v = some (l.set i v) := by
  simp [setByte, h]

theorem get_operand1_bits_lt (instr : Nat) : get_operand1_bits instr < 16 := by
  have h1 : instr &&& 0x0F00 ≤ 0x0F00 := Nat.and_le_right
  have h2 : (instr &&& 0x0F00) >>> 8 = (instr &&& 0x0F00) / 2 ^ 8 :=
    Nat.shiftRight_eq_div_pow ..
  unfold get_operand1_bits
  norm_num at h2 ⊢
  omega

theorem get_operand2_bits_lt (instr : Nat) : get_operand2_bits instr < 16 := by
  have h1 : instr &&& 0x00F0 ≤ 0x00F0 := Nat.and_le_right
  have h2 : (instr &&& 0x00F0) >>> 4 = (instr &&& 0x00F0) / 2 ^ 4 :=
    Nat.shiftRight_eq_div_pow ..
  unfold get_operand2_bits
  norm_num at h2 ⊢
  omega

theorem get_operand3_bits_lt (instr : Nat) : get_operand3_bits instr < 16 := by
  have h1 : instr &&& 0x000F ≤ 0x000F := Nat.and_le_right
  unfold get_operand3_bits
  omega

theorem get_operand23_bits_lt (instr : Nat) : get_operand23_bits instr < 256 := by
  have h1 : instr &&& 0x00FF ≤ 0x00FF := Nat.and_le_right
  unfold get_operand23_bits
  omega

theorem decodeInstr_bounds {instr : Nat} {op : OpCode}
    (h : decodeInstr instr = some op) : opBounds op := by
  unfold decodeInstr at h
  split at h <;> cases h <;>
    simp [opBounds, get_operand1_bits_lt, get_operand2_bits_lt, get_operand3_bits_lt,
      get_operand23_bits_lt]

theorem executeM_ir_cycle {c c' : Cpu} {op : OpCode} (h : c.executeM op = some c') :
    c'.instruction_register = c.instruction_register ∧ c'.cycle = c.cycle := by
  cases op <;>
    simp only [Cpu.executeM, Option.bind_eq_some, Option.map_eq_some',
      Option.some.injEq] at h
  case LoadValue reg value =>
    obtain ⟨rs, _, rfl⟩ := h; exact ⟨rfl, rfl⟩
  case Halt =>
    subst h; exact ⟨rfl, rfl⟩
  case Jump reg addr =>
    obtain ⟨r0, _, rr, _, hif⟩ := h
    split at hif
    · simp only [Option.map_eq_some'] at hif
      obtain ⟨t, _, rfl⟩ := hif; exact ⟨rfl, rfl⟩
    · simp only [Option.some.injEq] at hif
      subst hif; exact ⟨rfl, rfl⟩
  all_goals
    first
      | (obtain ⟨a, _, b, _, rfl⟩ := h; exact ⟨rfl, rfl⟩)
      | (obtain ⟨a, _, b, _, d, _, rfl⟩ := h; exact ⟨rfl, rfl⟩)
      | (obtain ⟨a, _, b, _, d, _, e, _, rfl⟩ := h; exact ⟨rfl, rfl⟩)

theorem decodeInstr_eq_none_iff (instr : Nat) :
    decodeInstr instr = none ↔
      ¬(1 ≤ get_opcode_bits instr ∧ get_opcode_bits instr ≤ 0xC) := by
  unfold decodeInstr
  split <;> simp_all
  omega

theorem floatPartSum_bounds (fb fpl : Nat) :
    ∀ n, 0 ≤ floatPartSum fb fpl n ∧ floatPartSum fb fpl n ≤ 1 - (1 / 2 : ℚ) ^ n := by
  intro n
  induction n with
  | zero => simp [floatPartSum]
  | succ k ih =>
    have hbit : ((fb >>> (fpl - (k + 1))) &&& 1) ≤ 1 := Nat.and_le_right
    have hbitq : (((fb >>> (fpl - (k + 1))) &&& 1 : Nat) : ℚ) ≤ 1 := by exact_mod_cast hbit
    have hbitq0 : (0 : ℚ) ≤ (((fb >>> (fpl - (k + 1))) &&& 1 : Nat) : ℚ) := by positivity
    have hc0 : (0 : ℚ) < 1 / (2 : ℚ) ^ (k + 1) := by positivity
    have hcp : (1 / (2 : ℚ) ^ (k + 1)) = (1 / 2 : ℚ) ^ (k + 1) := by
      rw [div_pow, one_pow]
    have hterm0 : (0 : ℚ) ≤ (1 / (2 : ℚ) ^ (k + 1)) *
        (((fb >>> (fpl - (k + 1))) &&& 1 : Nat) : ℚ) := by positivity
    have hterm1 : (1 / (2 : ℚ) ^ (k + 1)) *
        (((fb >>> (fpl - (k + 1))) &&& 1 : Nat) : ℚ) ≤ (1 / 2 : ℚ) ^ (k + 1) := by
      calc (1 / (2 : ℚ) ^ (k + 1)) * (((fb >>> (fpl - (k + 1))) &&& 1 : Nat) : ℚ)
          ≤ (1 / (2 : ℚ) ^ (k + 1)) * 1 := mul_le_mul_of_nonneg_left hbitq (le_of_lt hc0)
        _ = (1 / 2 : ℚ) ^ (k + 1) := by rw [mul_one, hcp]
    have hhalf : ((1 : ℚ) / 2) ^ (k + 1) = (1 / 2) * (1 / 2) ^ k := by ring
    refine ⟨by have := ih.1; unfold floatPartSum; linarith, ?_⟩
    have h2 := ih.2
    unfold floatPartSum
    linarith

theorem decodeF_bounds (v : Nat) : -16 < decodeF v ∧ decodeF v < 16 := by
  have hm : mantissaF v ≤ 15 := Nat.and_le_right
  unfold decodeF
  dsimp only
  set fpl := (4 - exponentF v).toNat with hfpl
  set ip : Nat := if exponentF v ≤ 0 then 0 else mantissaF v >>> fpl with hip
  set fb := ((mantissaF v <<< (8 - fpl)) % 256) >>> (8 - fpl) with hfb
  have hip15 : ip ≤ 15 := by
    rw [hip]; split
    · omega
    · refine le_trans ?_ hm
      rw [Nat.shiftRight_eq_div_pow]
      exact Nat.div_le_self _ _
  have hip15q : (ip : ℚ) ≤ 15 := by exact_mod_cast hip15
  have hipq0 : (0 : ℚ) ≤ (ip : ℚ) := by positivity
  have h1 := (floatPartSum_bounds fb fpl fpl).1
  have h2 := (floatPartSum_bounds fb fpl fpl).2
  have hpow : (0 : ℚ) < (1 / 2 : ℚ) ^ fpl := by positivity
  split <;> constructor <;> linarith

theorem ratTrunc_lower {q : ℚ} (h : -128 < q) : -127 ≤ ratTrunc q := by
  unfold ratTrunc
  split
  · have h0 : (0 : ℤ) ≤ ⌊q⌋ := Int.floor_nonneg.mpr (by assumption)
    omega
  · rename_i hq
    push_neg at hq
    have h2 : -q < 128 := by linarith
    have h3 : ((⌊-q⌋ : ℤ) : ℚ) < 128 := lt_of_le_of_lt (Int.floor_le _) h2
    have h4 : (⌊-q⌋ : ℤ) < 128 := by exact_mod_cast h3
    omega

theorem i8SatCast_lower {q : ℚ} (h : -128 < q) : -127 ≤ i8SatCast q := by
  have h1 := ratTrunc_lower h
  unfold i8SatCast
  have h2 : (-127 : ℤ) ≤ min 127 (ratTrunc q) := le_min (by norm_num) h1
  exact le_trans h2 (le_max_right _ _)

theorem encodeF_isSome {q : ℚ} (h : -128 < q) : (encodeF q).isSome := by
  have hsat : -127 ≤ i8SatCast q := i8SatCast_lower h
  unfold encodeF
  dsimp only
  rw [Option.isSome_map']
  have hiv : i8absWrap (i8SatCast q) = ((i8SatCast q).natAbs : Int) := by
    unfold i8absWrap
    rw [if_neg (by omega)]
  have hiv0 : 0 ≤ i8absWrap (i8SatCast q) := by rw [hiv]; positivity
  unfold exponent_value
  split_ifs <;> simp_all

theorem executeM_total {c : Cpu} {op : OpCode} (hwf : Wf c) (hb : opBounds op) :
    (c.executeM op).isSome := by
  obtain ⟨hreg, hmem⟩ := hwf
  cases op <;> simp only [opBounds] at hb <;> simp only [Cpu.executeM]
  case LoadAddr reg addr =>
    obtain ⟨v, hv⟩ := get?_some_of_lt (l := c.memory) (i := addr) (by omega)
    rw [hv]
    simp only [Option.some_bind]
    rw [setByte_eq_of_lt _ (by omega)]
    rfl
  case LoadValue reg value =>
    rw [setByte_eq_of_lt _ (by omega)]
    rfl
  case Store reg addr =>
    obtain ⟨v, hv⟩ := get?_some_of_lt (l := c.registers) (i := reg) (by omega)
    rw [hv]
    simp only [Option.some_bind]
    rw [setByte_eq_of_lt _ (by omega)]
    rfl
  case Move source_reg target_reg =>
    obtain ⟨v, hv⟩ := get?_some_of_lt (l := c.registers) (i := source_reg) (by omega)
    rw [hv]
    simp only [Option.some_bind]
    rw [setByte_eq_of_lt _ (by omega)]
    rfl
  case AddInt t r1 r2 =>
    obtain ⟨v1, hv1⟩ := get?_some_of_lt (l := c.registers) (i := r1) (by omega)
    obtain ⟨v2, hv2⟩ := get?_some_of_lt (l := c.registers) (i := r2) (by omega)
    rw [hv1, hv2]
    simp only [Option.some_bind]
    rw [setByte_eq_of_lt _ (by omega)]
    rfl
  case AddFloat t r1 r2 =>
    obtain ⟨v1, hv1⟩ := get?_some_of_lt (l := c.registers) (i := r1) (by omega)
    obtain ⟨v2, hv2⟩ := get?_some_of_lt (l := c.registers) (i := r2) (by omega)
    rw [hv1, hv2]
    simp only [Option.some_bind]
    have hsum : -128 < decodeF v1 + decodeF v2 := by
      have hb1 := (decodeF_bounds v1).1
      have hb2 := (decodeF_bounds v2).1
      linarith
    obtain ⟨v3, hv3⟩ := Option.isSome_iff_exists.mp (encodeF_isSome hsum)
    rw [hv3]
    simp only [Option.some_bind]
    rw [setByte_eq_of_lt _ (by omega)]
    rfl
  case Or t r1 r2 =>
    obtain ⟨v1, hv1⟩ := get?_some_of_lt (l := c.registers) (i := r1) (by omega)
    obtain ⟨v2, hv2⟩ := get?_some_of_lt (l := c.registers) (i := r2) (by omega)
    rw [hv1, hv2]
    simp only [Option.some_bind]
    rw [setByte_eq_of_lt _ (by omega)]
    rfl
  case And t r1 r2 =>
    obtain ⟨v1, hv1⟩ := get?_some_of_lt (l := c.registers) (i := r1) (by omega)
    obtain ⟨v2, hv2⟩ := get?_some_of_lt (l := c.registers) (i := r2) (by omega)
    rw [hv1, hv2]
    simp only [Option.some_bind]
    rw [setByte_eq_of_lt _ (by omega)]
    rfl
  case Xor t r1 r2 =>
    obtain ⟨v1, hv1⟩ := get?_some_of_lt (l := c.registers) (i := r1) (by omega)
    obtain ⟨v2, hv2⟩ := get?_some_of_lt (l := c.registers) (i := r2) (by omega)
    rw [hv1, hv2]
    simp only [Option.some_bind]
    rw [setByte_eq_of_lt _ (by omega)]
    rfl
  case Rotate reg times =>
    obtain ⟨v, hv⟩ := get?_some_of_lt (l := c.registers) (i := reg) (by omega)
    rw [hv]
    simp only [Option.some_bind]
    rw [setByte_eq_of_lt _ (by omega)]
    rfl
  case Jump reg addr =>
    obtain ⟨r0, hr0⟩ := get?_some_of_lt (l := c.registers) (i := 0) (by omega)
    obtain ⟨rr, hrr⟩ := get?_some_of_lt (l := c.registers) (i := reg) (by omega)
    rw [hr0, hrr]
    simp only [Option.some_bind]
    split
    · obtain ⟨t, ht⟩ := get?_some_of_lt (l := c.memory) (i := addr) (by omega)
      rw [ht]
      rfl
    · rfl
  case Halt => rfl

/-! ### Claim theorems -/

/-- **C10**: for every opcode produced by `decode` on a well-formed state,
every register index `execute` uses is a 4-bit operand field (below 16) and
every memory index is an 8-bit operand field (below 256), and `execute`
succeeds — the failure branch of every indexing operation inside `execute`
(modelled by `Option.none`) is unreachable. -/
theorem c10_execute_no_oob (c : Cpu) (op : OpCode) (hwf : Wf c)
    (hdec : c.decode = some op) : opBounds op ∧ (c.executeM op).isSome := by
  rw [Cpu.decode] at hdec
  exact ⟨decodeInstr_bounds hdec, executeM_total hwf (decodeInstr_bounds hdec)⟩

/-- Witness for C10 at the concrete state fetched from `0x1234`. -/
theorem c10_execute_no_oob_witness :
    Wf { Cpu.new with instruction_register := 0x1234 } ∧
    ({ Cpu.new with instruction_register := 0x1234 } : Cpu).decode =
      some (.LoadAddr 0x2 0x34) ∧
    opBounds (.LoadAddr 0x2 0x34) ∧
    (({ Cpu.new with instruction_register := 0x1234 } : Cpu).executeM
      (.LoadAddr 0x2 0x34)).isSome := by
  refine ⟨by decide, by decide, ?_⟩
  exact c10_execute_no_oob _ _ (by decide) (by decide)

/-- **C3**: `execute` advances `program_counter` by exactly 2 for every
opcode except `Jump`; `Jump` sets `program_counter` to `mem[addr]` when
`reg[0] = reg[R]`, leaves the state unchanged when they differ, and never
applies the +2 advance in either outcome. -/
theorem c3_pc_advance (c c' : Cpu) (op : OpCode) (h : c.executeM op = some c') :
    ((∀ r a, op ≠ OpCode.Jump r a) → c'.program_counter = c.program_counter + 2) ∧
    (∀ r a, op = OpCode.Jump r a →
      ∃ v0 vr, c.registers.get? 0 = some v0 ∧ c.registers.get? r = some vr ∧
        (v0 = vr → c.memory.get? a = some c'.program_counter) ∧
        (v0 ≠ vr → c' = c)) := by
  cases op <;>
    simp only [Cpu.executeM, Option.bind_eq_some, Option.map_eq_some',
      Option.some.injEq] at h
  case Jump reg addr =>
    refine ⟨fun hne => absurd rfl (hne reg addr), ?_⟩
    intro r a heq
    cases heq
    obtain ⟨r0, h0, rr, hr, hif⟩ := h
    refine ⟨r0, rr, h0, hr, ?_, ?_⟩
    · intro hv
      rw [if_pos hv] at hif
      simp only [Option.map_eq_some'] at hif
      obtain ⟨t, ht, hteq⟩ := hif
      subst hteq
      exact ht
    · intro hv
      rw [if_neg hv] at hif
      simp only [Option.some.injEq] at hif
      exact hif.symm
  all_goals
    first
      | (subst h; exact ⟨fun _ => rfl, fun r a heq => by cases heq⟩)
      | (obtain ⟨a1, _, rfl⟩ := h; exact ⟨fun _ => rfl, fun r a heq => by cases heq⟩)
      | (obtain ⟨a1, _, a2, _, rfl⟩ := h;
         exact ⟨fun _ => rfl, fun r a heq => by cases heq⟩)
      | (obtain ⟨a1, _, a2, _, a3, _, rfl⟩ := h;
         exact ⟨fun _ => rfl, fun r a heq => by cases heq⟩)
      | (obtain ⟨a1, _, a2, _, a3, _, a4, _, rfl⟩ := h;
         exact ⟨fun _ => rfl, fun r a heq => by cases heq⟩)

/-- Witness for C3: a non-jump opcode advances the program counter by 2, and
a taken jump loads the counter from memory. -/
theorem c3_pc_advance_witness :
    (∃ c' : Cpu, Cpu.new.executeM (.LoadValue 0 0xA3) = some c' ∧
      c'.program_counter = Cpu.new.program_counter + 2) ∧
    (∃ c' : Cpu, Cpu.new.executeM (.Jump 4 0x3C) = some c' ∧
      Cpu.new.memory.get? 0x3C = some c'.program_counter) := by
  constructor
  · have h : Cpu.new.executeM (.LoadValue 0 0xA3) =
        some { Cpu.new with
                registers := (List.replicate 16 0).set 0 0xA3,
                program_counter := 0 + 2 } := by decide
    exact ⟨_, h, (c3_pc_advance _ _ _ h).1 (fun r a => by simp)⟩
  · have h : Cpu.new.executeM (.Jump 4 0x3C) =
        some { Cpu.new with program_counter := 0 } := by decide
    obtain ⟨v0, vr, h0, hr, htaken, _⟩ := (c3_pc_advance _ _ _ h).2 4 0x3C rfl
    have hv : v0 = vr := by
      have h0' : v0 = 0 := by simpa using h0.symm.trans (by decide : (Cpu.new.registers.get? 0) = some 0)
      have hr' : vr = 0 := by simpa using hr.symm.trans (by decide : (Cpu.new.registers.get? 4) = some 0)
      omega
    exact ⟨_, h, htaken hv⟩

/-- **C2**: the `AddInt` opcode (0x5) stores in the target register the sum
of the two operand registers under unsigned 8-bit wraparound addition
(modulo 256), for all operand values, and never fails on a well-formed
state with 4-bit register operands. -/
theorem c2_addint_wraps :
    (∀ (c : Cpu) (t r1 r2 : Nat), Wf c → t < 16 → r1 < 16 → r2 < 16 →
      (c.executeM (.AddInt t r1 r2)).isSome) ∧
    (∀ (c c' : Cpu) (t r1 r2 : Nat), c.executeM (.AddInt t r1 r2) = some c' →
      ∃ v1 v2, c.registers.get? r1 = some v1 ∧ c.registers.get? r2 = some v2 ∧
        c'.registers = c.registers.set t ((v1 + v2) % 256)) := by
  constructor
  · intro c t r1 r2 hwf h1 h2 h3
    exact executeM_total hwf (by exact ⟨h1, h2, h3⟩)
  · intro c c' t r1 r2 h
    simp only [Cpu.executeM, Option.bind_eq_some, Option.map_eq_some',
      Option.some.injEq] at h
    obtain ⟨v1, h1, v2, h2, rs, hrs, rfl⟩ := h
    unfold setByte at hrs
    split at hrs
    · simp only [Option.some.injEq] at hrs
      subst hrs
      exact ⟨v1, v2, h1, h2, rfl⟩
    · cases hrs

/-- Witness for C2 at an overflowing input: `0xFF + 0x01` wraps to `0x00`. -/
theorem c2_addint_wraps_witness :
    (({ Cpu.new with
          registers := ((List.replicate 16 0).set 2 0xFF).set 6 1 } : Cpu).executeM
        (.AddInt 7 2 6)).isSome ∧
    (∃ c' : Cpu,
      ({ Cpu.new with
          registers := ((List.replicate 16 0).set 2 0xFF).set 6 1 } : Cpu).executeM
        (.AddInt 7 2 6) = some c' ∧
      c'.registers =
        (((List.replicate 16 0).set 2 0xFF).set 6 1).set 7 ((0xFF + 1) % 256)) := by
  constructor
  · exact c2_addint_wraps.1 _ 7 2 6 (by decide) (by decide) (by decide) (by decide)
  · have h : ({ Cpu.new with
          registers := ((List.replicate 16 0).set 2 0xFF).set 6 1 } : Cpu).executeM
        (.AddInt 7 2 6) =
        some { Cpu.new with
          registers := (((List.replicate 16 0).set 2 0xFF).set 6 1).set 7 0,
          program_counter := 0 + 2 } := by decide
    obtain ⟨v1, v2, h1, h2, hset⟩ := c2_addint_wraps.2 _ _ 7 2 6 h
    refine ⟨_, h, ?_⟩
    have hv1 : v1 = 0xFF := by
      simpa using h1.symm.trans
        (by decide : ((((List.replicate 16 0).set 2 0xFF).set 6 1).get? 2) = some 0xFF)
    have hv2 : v2 = 1 := by
      simpa using h2.symm.trans
        (by decide : ((((List.replicate 16 0).set 2 0xFF).set 6 1).get? 6) = some 1)
    subst hv1 hv2
    exact hset

/-- **C1**: `cycle` reports failure exactly when the top 4 bits of the
fetched instruction are outside `0x1..0xC` (decode yields none); on failure
the machine is halted, the cycle counter and program counter are unchanged
and the offending instruction is visible in the instruction register; on
success the cycle counter increments by one (modulo 2³²). -/
theorem c1_cycle_failure_iff_illegal :
    (∀ instr, decodeInstr instr = none ↔
      ¬(1 ≤ get_opcode_bits instr ∧ get_opcode_bits instr ≤ 0xC)) ∧
    (∀ (c : Cpu) (b : Bool) (c' : Cpu), c.cycleM = some (b, c') →
      c'.instruction_register =
        ((c.memory.getD c.program_counter 0) <<< 8) |||
          (c.memory.getD (c.program_counter + 1) 0) ∧
      (b = false ↔ decodeInstr c'.instruction_register = none) ∧
      (b = false → c'.halted = true ∧ c'.cycle = c.cycle ∧
        c'.program_counter = c.program_counter) ∧
      (b = true → c'.cycle = (c.cycle + 1) % 4294967296)) := by
  refine ⟨decodeInstr_eq_none_iff, ?_⟩
  intro c b c' h
  simp only [Cpu.cycleM, Cpu.fetchM, Option.bind_eq_some, Option.map_eq_some'] at h
  obtain ⟨c1, ⟨b0, hb0, b1, hb1, hc1⟩, hrest⟩ := h
  subst hc1
  have hgD0 : c.memory.getD c.program_counter 0 = b0 := by
    rw [List.getD_eq_getElem?_getD, ← List.get?_eq_getElem?, hb0]; rfl
  have hgD1 : c.memory.getD (c.program_counter + 1) 0 = b1 := by
    rw [List.getD_eq_getElem?_getD, ← List.get?_eq_getElem?, hb1]; rfl
  rw [hgD0, hgD1]
  simp only [Cpu.decode] at hrest
  cases hd : decodeInstr ((b0 <<< 8) ||| b1) with
  | none =>
    rw [hd] at hrest
    simp only [Option.some.injEq, Prod.mk.injEq] at hrest
    obtain ⟨hb, hc'⟩ := hrest
    subst hb
    subst hc'
    refine ⟨rfl, by simp [hd], fun _ => ⟨rfl, rfl, rfl⟩, by simp⟩
  | some op =>
    rw [hd] at hrest
    simp only [Option.map_eq_some'] at hrest
    obtain ⟨c2, hc2, heq⟩ := hrest
    obtain ⟨hir, hcy⟩ := executeM_ir_cycle hc2
    simp only [Prod.mk.injEq] at heq
    obtain ⟨hb, hc'⟩ := heq
    subst hb
    subst hc'
    refine ⟨by simpa using hir, ?_, by simp, fun _ => by simpa using congrArg (· % 4294967296) (congrArg (· + 1) hcy)⟩
    constructor
    · intro hfalse; cases hfalse
    · intro hnone
      rw [show ({ c2 with cycle := (c2.cycle + 1) % 4294967296 } : Cpu).instruction_register = c2.instruction_register from rfl, hir] at hnone
      simp only [show ({ c with instruction_register := (b0 <<< 8) ||| b1 } : Cpu).instruction_register = (b0 <<< 8) ||| b1 from rfl] at hnone
      rw [hd] at hnone
      cases hnone

/-- Witness for C1's cycle statement at a concrete illegal instruction
(`0xD302` at address 0). -/
theorem c1_cycle_failure_iff_illegal_witness :
    (∃ c' : Cpu,
      ({ Cpu.new with memory := [0xD3, 0x02] ++ List.replicate 254 0 } : Cpu).cycleM =
        some (false, c') ∧
      c'.halted = true ∧ c'.cycle = 0 ∧ c'.program_counter = 0 ∧
      c'.instruction_register = 0xD302) ∧
    (decodeInstr 0xD302 = none ↔
      ¬(1 ≤ get_opcode_bits 0xD302 ∧ get_opcode_bits 0xD302 ≤ 0xC)) := by
  refine ⟨?_, c1_cycle_failure_iff_illegal.1 0xD302⟩
  have h : ({ Cpu.new with memory := [0xD3, 0x02] ++ List.replicate 254 0 } : Cpu).cycleM =
      some (false, { Cpu.new with
        memory := [0xD3, 0x02] ++ List.replicate 254 0,
        instruction_register := 0xD302,
        halted := true }) := by decide
  obtain ⟨hir, _, hfail, _⟩ := c1_cycle_failure_iff_illegal.2 _ _ _ h
  obtain ⟨hh, hcy, hpc⟩ := hfail rfl
  exact ⟨_, h, hh, hcy, hpc, by simp at hir; exact hir⟩

theorem rotr8_testBit {v : Nat} (hv : v < 256) {x i : Nat} (hi : i < 8) :
    (rotr8 v x).testBit i = v.testBit ((i + x) % 8) := by
  unfold rotr8
  have hk8 : x % 8 < 8 := Nat.mod_lt _ (by norm_num)
  have hmod : (i + x) % 8 = (i + x % 8) % 8 := by omega
  have h256 : (256 : Nat) = 2 ^ 8 := by norm_num
  rw [Nat.testBit_or, Nat.testBit_shiftRight, h256, Nat.testBit_mod_two_pow,
    Nat.testBit_shiftLeft, hmod]
  rcases Nat.lt_or_ge (i + x % 8) 8 with hcase | hcase
  · have h1 : (i + x % 8) % 8 = i + x % 8 := Nat.mod_eq_of_lt hcase
    have h2 : ¬(i ≥ 8 - x % 8) := by omega
    simp [h2, h1, Nat.add_comm]
  · have h1 : (i + x % 8) % 8 = i + x % 8 - 8 := by omega
    have hbig : v.testBit (x % 8 + i) = false := by
      apply Nat.testBit_lt_two_pow
      calc v < 256 := hv
        _ = 2 ^ 8 := h256
        _ ≤ 2 ^ (x % 8 + i) := Nat.pow_le_pow_right (by norm_num) (by omega)
    have h3 : i - (8 - x % 8) = i + x % 8 - 8 := by omega
    simp [hi, show i ≥ 8 - x % 8 by omega, hbig, h1, h3]

/-- **C7**: the `Rotate` opcode (0xA) replaces `reg[R]` by the circular
right rotation of its 8 bits by the 4-bit count modulo 8: counts 8–15
behave as the count modulo 8, every result bit `i` is input bit
`(i + X) mod 8`, and rotating `0b00000111` right by 3 yields `0b11100000`. -/
theorem c7_rotate_mod8 :
    (∀ (c c' : Cpu) (r x : Nat), c.executeM (.Rotate r x) = some c' →
      ∃ v, c.registers.get? r = some v ∧
        c'.registers = c.registers.set r (rotr8 v x)) ∧
    (∀ v x, rotr8 v x = rotr8 v (x % 8)) ∧
    (∀ v, v < 256 → ∀ x i, i < 8 →
      (rotr8 v x).testBit i = v.testBit ((i + x) % 8)) ∧
    rotr8 0b00000111 3 = 0b11100000 := by
  refine ⟨?_, ?_, fun v hv x i hi => rotr8_testBit hv hi, by decide⟩
  · intro c c' r x h
    simp only [Cpu.executeM, Option.bind_eq_some, Option.map_eq_some',
      Option.some.injEq] at h
    obtain ⟨v, hv, rs, hrs, rfl⟩ := h
    unfold setByte at hrs
    split at hrs
    · simp only [Option.some.injEq] at hrs
      subst hrs
      exact ⟨v, hv, rfl⟩
    · cases hrs
  · intro v x
    unfold rotr8
    rw [Nat.mod_mod_of_dvd _ (by norm_num : (8:Nat) ∣ 8)]

/-- **C4**: `init` rejects exactly the programs longer than 256 bytes — but
in the source this rejection is a `panic!`, modelled here as `none`, not an
explicit capacity-error return as the claim and the spec's error-handling
design require; for programs of length at most 256 the machine starts with
the program at the front of memory, the rest of memory zero, and all other
state zero/false. -/
theorem c4_init_capacity :
    (∀ p : List Nat, Cpu.initM p = none ↔ 256 < p.length) ∧
    (∀ p : List Nat, p.length ≤ 256 →
      Cpu.initM p = some
        { registers := List.replicate 16 0,
          memory := p ++ List.replicate (256 - p.length) 0,
          program_counter := 0, instruction_register := 0, cycle := 0,
          halted := false }) ∧
    Cpu.initM (List.replicate 257 0) = none := by
  refine ⟨?_, ?_, ?_⟩
  · intro p
    unfold Cpu.initM
    split <;> simp_all
  · intro p h
    unfold Cpu.initM
    rw [if_neg (by omega)]
    rfl
  · unfold Cpu.initM
    rw [if_pos (by simp)]

/-- Witness for C4 at a 1-byte program and at the 257-byte boundary. -/
theorem c4_init_capacity_witness :
    Cpu.initM [0xAB] = some
      { registers := List.replicate 16 0,
        memory := [0xAB] ++ List.replicate 255 0,
        program_counter := 0, instruction_register := 0, cycle := 0,
        halted := false } ∧
    (Cpu.initM (List.replicate 257 7) = none ↔ 256 < (List.replicate 257 7).length) := by
  exact ⟨c4_init_capacity.2.1 [0xAB] (by norm_num), c4_init_capacity.1 _⟩

/-- **C5**: an input with fractional magnitude strictly below `0.03125` and
nonzero integer part on which `encode` fails through the unrepresentable
arm instead of returning a packed byte: the value `-200`, whose fractional
part is `0` and whose integer part is `-200`; the exponent chain falls
through every branch (the saturated, wrapped `i8` absolute value is `-128`,
stopping both the integer comparisons and the `int_value == 0` escape). -/
theorem c5_encode_unrepresentable_input :
    fractAbs (-200) < 1 / 32 ∧ ratTrunc (-200) ≠ 0 ∧
    exponent_value (i8absWrap (i8SatCast (-200))) (fractAbs (-200)) = none ∧
    encodeF (-200) = none := by
  have ht : ratTrunc (-200) = -200 := by norm_num [ratTrunc]
  have hi : i8absWrap (i8SatCast (-200)) = -128 := by
    norm_num [i8absWrap, i8SatCast, ht]
  have hf : fractAbs (-200) = 0 := by norm_num [fractAbs, ht]
  have hev : exponent_value (-128) 0 = none := by norm_num [exponent_value]
  refine ⟨by rw [hf]; norm_num, by rw [ht]; norm_num, by rw [hi, hf]; exact hev, ?_⟩
  unfold encodeF
  simp only [hi, hf, hev]
  rfl

/-- **C6**: the float codec's fixture equations: `decode 0b01101011 = 2.75`,
`decode 0b00111100 = 0.375`, `encode 0.375 = 0b00111100`,
`encode (-1.125) = 0b11011001`, `decode 0b11011001 = -1.125`, and
`encode 0 = 0`. -/
theorem c6_codec_fixtures :
    decodeF 0b01101011 = 11 / 4 ∧
    decodeF 0b00111100 = 3 / 8 ∧
    encodeF (3 / 8) = some 0b00111100 ∧
    encodeF (-(9 / 8)) = some 0b11011001 ∧
    decodeF 0b11011001 = -(9 / 8) ∧
    encodeF 0 = some 0b00000000 := by
  refine ⟨?_, ?_, ?_, ?_, ?_, ?_⟩
  · have e0 : sign_bit 107 = 0 := rfl
    have e1 : mantissaF 107 = 11 := rfl
    have e2 : exponentF 107 = 2 := rfl
    have e3 : ((4 : Int) - 2).toNat = 2 := rfl
    unfold decodeF
    simp only [e0, e1, e2, e3]
    norm_num [floatPartSum, Nat.shiftLeft_eq, Nat.shiftRight_eq_div_pow,
      Nat.and_one_is_mod]
  · have e0 : sign_bit 60 = 0 := rfl
    have e1 : mantissaF 60 = 12 := rfl
    have e2 : exponentF 60 = -1 := rfl
    have e3 : ((4 : Int) - -1).toNat = 5 := rfl
    unfold decodeF
    simp only [e0, e1, e2, e3]
    norm_num [floatPartSum, Nat.shiftLeft_eq, Nat.shiftRight_eq_div_pow,
      Nat.and_one_is_mod]
  · have ht : ratTrunc (3 / 8) = 0 := by norm_num [ratTrunc]
    have hf : fractAbs (3 / 8) = 3 / 8 := by norm_num [fractAbs, ht]
    have hi : i8absWrap (i8SatCast (3 / 8)) = 0 := by
      norm_num [i8absWrap, i8SatCast, ht]
    have hev : exponent_value 0 (3 / 8) = some 3 := by norm_num [exponent_value]
    have hem : encodeMantissa 0 (3 / 8) = 12 := by
      unfold encodeMantissa
      norm_num
      all_goals decide
    unfold encodeF
    simp only [hi, hf, hev, hem]
    norm_num
    all_goals decide
  · have ht : ratTrunc (-(9 / 8)) = -1 := by norm_num [ratTrunc]
    have hf : fractAbs (-(9 / 8)) = 1 / 8 := by norm_num [fractAbs, ht]
    have hi : i8absWrap (i8SatCast (-(9 / 8))) = 1 := by
      norm_num [i8absWrap, i8SatCast, ht]
    have hev : exponent_value 1 (1 / 8) = some 5 := by norm_num [exponent_value]
    have hem : encodeMantissa 1 (1 / 8) = 9 := by
      unfold encodeMantissa
      norm_num
      all_goals decide
    unfold encodeF
    norm_num [hi, hf, hev, hem]
    all_goals decide
  · have e0 : sign_bit 217 = 1 := rfl
    have e1 : mantissaF 217 = 9 := rfl
    have e2 : exponentF 217 = 1 := rfl
    have e3 : ((4 : Int) - 1).toNat = 3 := rfl
    unfold decodeF
    simp only [e0, e1, e2, e3]
    norm_num [floatPartSum, Nat.shiftLeft_eq, Nat.shiftRight_eq_div_pow,
      Nat.and_one_is_mod]
  · have ht : ratTrunc 0 = 0 := by norm_num [ratTrunc]
    have hf : fractAbs 0 = 0 := by norm_num [fractAbs, ht]
    have hi : i8absWrap (i8SatCast 0) = 0 := by
      norm_num [i8absWrap, i8SatCast, ht]
    have hev : exponent_value 0 0 = some 0 := by norm_num [exponent_value]
    have hem : encodeMantissa 0 0 = 0 := by
      unfold encodeMantissa
      norm_num
    unfold encodeF
    simp only [hi, hf, hev, hem]
    norm_num

/-- Witness for C7: executing `Rotate` on `reg[4] = 0b00000111` with count
3 stores the rotation `0b11100000`, and bit 7 of the result is input bit
`(7 + 3) % 8`. -/
theorem c7_rotate_mod8_witness :
    (∃ c' : Cpu,
      ({ Cpu.new with registers := (List.replicate 16 0).set 4 0x07 } : Cpu).executeM
          (.Rotate 4 3) = some c' ∧
        c'.registers = ((List.replicate 16 0).set 4 0x07).set 4 (rotr8 0x07 3)) ∧
    (rotr8 0x07 3).testBit 7 = (0x07 : Nat).testBit ((7 + 3) % 8) := by
  constructor
  · have h : ({ Cpu.new with registers := (List.replicate 16 0).set 4 0x07 } : Cpu).executeM
        (.Rotate 4 3) =
        some { Cpu.new with
                registers := ((List.replicate 16 0).set 4 0x07).set 4 0xE0,
                program_counter := 0 + 2 } := by decide
    obtain ⟨v, hv, hset⟩ := c7_rotate_mod8.1 _ _ 4 3 h
    have hv7 : v = 7 := by
      simpa using hv.symm.trans
        (by decide : (((List.replicate 16 0).set 4 0x07).get? 4) = some 0x07)
    subst hv7
    exact ⟨_, h, hset⟩
  · exact c7_rotate_mod8.2.2.1 0x07 (by norm_num) 3 7 (by norm_num)

/-- **C8**: `run` cycles until `halted` and returns the last cycle's value;
on an already-halted machine it performs zero cycles and returns success
(the state is unchanged); on `[0x14,0x02,0x34,0x17,0xC0,0x00]` it halts
with `memory[0x17] = 0x34` after exactly 3 cycles (2 units of fuel do not
reach the halt, and the cycle counter ends at 3); on the illegal program
`[0xD3,0x02]` it returns the failing last cycle's `false` with the counter
still 0. -/
theorem c8_run_until_halt :
    (∀ (c : Cpu) (n : Nat), c.halted = true → Cpu.runM n c = some (true, c)) ∧
    ((Cpu.initM [0x14, 0x02, 0x34, 0x17, 0xC0, 0x00]).bind (Cpu.runM 3)).map
        (fun bc => (bc.1, bc.2.halted, bc.2.memory.get? 0x17, bc.2.cycle)) =
      some (true, true, some 0x34, 3) ∧
    (Cpu.initM [0x14, 0x02, 0x34, 0x17, 0xC0, 0x00]).bind (Cpu.runM 2) = none ∧
    ((Cpu.initM [0xD3, 0x02]).bind (Cpu.runM 1)).map
        (fun bc => (bc.1, bc.2.halted, bc.2.cycle)) = some (false, true, 0) := by
  refine ⟨?_, by decide, by decide, by decide⟩
  intro c n h
  cases n <;> simp [Cpu.runM, Cpu.runAux, h]

/-- Witness for C8's already-halted statement at a concrete halted state. -/
theorem c8_run_until_halt_witness :
    Cpu.runM 5 { Cpu.new with halted := true } =
      some (true, { Cpu.new with halted := true }) :=
  c8_run_until_halt.1 _ 5 rfl

/-- **C9 counterexample**: a reachable machine state with `halted = true`
(produced by one cycle of `[0xC0,0x00,0xC0,0x00]`, leaving
`program_counter = 2` and `cycle_count = 1`) on which a further engine
operation — a direct `cycle()` call, which does not test `halted` — executes
another instruction and mutates both `program_counter` (to 4) and
`cycle_count` (to 2), so HALTED is not terminal for `cycle()`. -/
theorem c9_halted_not_terminal_for_cycle_cex :
    ((Cpu.initM [0xC0, 0x00, 0xC0, 0x00]).bind Cpu.cycleM).map
        (fun bc => (bc.1, bc.2.halted, bc.2.program_counter, bc.2.cycle)) =
      some (true, true, 2, 1) ∧
    (((Cpu.initM [0xC0, 0x00, 0xC0, 0x00]).bind Cpu.cycleM).bind
        (fun bc => bc.2.cycleM)).map
        (fun bc2 => (bc2.1, bc2.2.program_counter, bc2.2.cycle)) =
      some (true, 4, 2) := by
  exact ⟨by decide, by decide⟩

/-- **C9 (amended)**: once `halted` is true the run loop performs no
further cycles: `run` returns immediately with its carried result and the
machine state unchanged, whatever the result carried so far; `cycle()`
invoked directly is not guarded by `halted`. -/
theorem c9_halted_terminal_for_run (c : Cpu) (r : Bool) (n : Nat)
    (h : c.halted = true) : Cpu.runAux n r c = some (r, c) := by
  cases n <;> simp [Cpu.runAux, h]

/-- Witness for the amended C9 at a concrete halted state. -/
theorem c9_halted_terminal_for_run_witness :
    Cpu.runAux 7 false { Cpu.new with halted := true } =
      some (false, { Cpu.new with halted := true }) :=
  c9_halted_terminal_for_run _ false 7 rfl

end Vole
